import Mathlib

/-!
Verification of the room lifecycle and round state machine of the
Pictionary WebSocket server (`src/server/index.js`).

The server keeps, per room, an ordered player list, a secret word, a round
counter, a turn index, the set of players who guessed correctly this round,
a phase, and an optional round deadline.  Socket handlers (`player:join`,
`player:leave`, `chat:message`, `guess:submit`, `round:skip`,
`round:start`, `game:restart`, `disconnect`) and timer expiries mutate this
state and emit events.  Below, each handler is translated into a pure
function `RoomState → args → (RoomState × List Emit)`; handlers that can
throw a runtime `TypeError` (the `players.reduce` with no initial value in
`checkGameEnd` throws on an empty array) return `Option`, with `none`
standing for the uncaught exception.
-/

namespace Pict

/-! ## String helpers (`normalize`, `String.trim` as used by the server) -/

/-- JS `\s`-style whitespace test (approximated by `Char.isWhitespace`). -/
def isWs (c : Char) : Bool := c.isWhitespace

/-- Split a character list at whitespace, keeping empty chunks.
Models the grouping performed by `str.replace(/\s+/g, " ")` together with
`trim`: the non-empty chunks are exactly the maximal non-whitespace runs. -/
def splitOnWs (cs : List Char) : List (List Char) :=
  cs.foldr
    (fun c acc =>
      if isWs c then [] :: acc
      else
        match acc with
        | [] => [[c]]
        | w :: ws => (c :: w) :: ws)
    []

/-- The maximal non-whitespace runs of a character list. -/
def wordsOf (cs : List Char) : List (List Char) :=
  (splitOnWs cs).filter (· ≠ [])

/-- Join chunks with a single space. -/
def joinSp : List (List Char) → List Char
  | [] => []
  | [w] => w
  | w :: ws => w ++ ' ' :: joinSp ws

/-- `normalize` from the server:
`String(str || "").trim().toLowerCase().replace(/\s+/g, " ")` —
trim, lowercase and collapse internal whitespace to single spaces. -/
def normalize (s : String) : String :=
  ⟨joinSp (wordsOf (s.toList.map Char.toLower))⟩

/-- JS `String.prototype.trim`. -/
def jsTrim (s : String) : String :=
  ⟨((s.toList.dropWhile isWs).reverse.dropWhile isWs).reverse⟩

/-- JS truthiness of the (nullable) `room.word`: `null` and `""` are falsy. -/
def jsTruthy : Option String → Bool
  | some s => s ≠ ""
  | none => false

/-! ## Data model -/

/-- `RoomState.phase`. -/
inductive Phase where
  | lobby | drawing | intermission | gameover
deriving DecidableEq, Repr

/-- A `Player` record: socket id, display name, score, connection flag,
disconnect timestamp. -/
structure Player where
  id : String
  name : String
  score : Nat
  connected : Bool
  disconnectedAt : Option Nat
deriving DecidableEq, Repr

/-- Which callback the single per-room interval timer would run on expiry:
the drawing-round timeout or the intermission rotation. -/
inductive TimerKind where
  | round | intermission
deriving DecidableEq, Repr

/-- The per-room state (`RoomState` in the source), together with the
per-room timer entry of `roomTimers`. -/
structure RoomState where
  id : String
  players : List Player
  word : Option String
  round : Nat
  turnIndex : Nat
  guessed : List String
  phase : Phase
  roundEndAt : Option Nat
  timer : Option TimerKind
deriving DecidableEq, Repr

/-- A fresh room as built by `getOrCreateRoom`. -/
def roomInit (rid : String) : RoomState :=
  { id := rid, players := [], word := none, round := 1, turnIndex := 0,
    guessed := [], phase := .lobby, roundEndAt := none, timer := none }

/-- The public projection `{id, name, score}` of a player used in payloads. -/
structure PPub where
  id : String
  name : String
  score : Nat
deriving DecidableEq, Repr

def toPub (p : Player) : PPub := ⟨p.id, p.name, p.score⟩

/-- The `room:state` broadcast payload. Note that it has no word field. -/
structure StatePayload where
  roomId : String
  players : List PPub
  round : Nat
  turnPlayerId : Option String
  drawerId : Option String
  phase : Phase
  timeLeft : Option Nat
deriving DecidableEq, Repr

/-- The three reason strings produced by `checkGameEnd`, by template. -/
inductive GameEndReason where
  | tieAtCap (score : Nat)
  | capWin (name : String) (score : Nat)
  | earlyWin (name : String)
deriving DecidableEq, Repr

/-- Result of `checkGameEnd` (`{ended:false}` or `{ended:true, winner, reason}`). -/
inductive GameEnd where
  | notEnded
  | ended (winner : Player) (reason : GameEndReason)
deriving DecidableEq, Repr

/-- The `game:over` payload. -/
structure GameOverPayload where
  roomId : String
  winner : Option PPub
  reason : GameEndReason
  finalScores : List PPub
deriving DecidableEq, Repr

/-- The `reason` field of `round:ended`. -/
inductive EndReason where
  | guessed | timeout | skipped
deriving DecidableEq, Repr

/-- Observable emissions/effects of a handler, in order.  `roundWord` is the
single-recipient private delivery `io.to(drawer.id).emit("round:word", ...)`;
`scheduleDeleteCheck` is a `setTimeout` that will re-check emptiness and
delete the room. -/
inductive Emit where
  | roomsList
  | roomState (p : StatePayload)
  | roundClear (roomId : String)
  | roundEnded (roomId : String) (reason : EndReason)
  | roundWord (target : String) (word : String)
  | chatMsg (roomId fromName text : String) (system : Bool)
  | scoreUpdate (roomId : String) (players : List PPub)
  | gameOver (p : GameOverPayload)
  | joinError (target : String)
  | scheduleDeleteCheck (roomId : String) (delayMs : Nat)
deriving DecidableEq, Repr

/-! ## Constants -/

def MAX_PLAYERS_PER_ROOM : Nat := 8
def ROUND_MS : Nat := 60000
def INTERMISSION_MS : Nat := 3000
def WINNING_SCORE : Nat := 10
def MAX_ROUNDS : Nat := 6

/-! ## Core room functions -/

def defaultPlayer : Player := ⟨"", "", 0, false, none⟩

/-- The authoritative drawer used by the `guess:submit`, `draw:stroke`,
`round:clear`, `round:skip` and `room:close` handlers and by `startRound`:
`room.players[room.turnIndex % room.players.length]`, indexed over the FULL
player list (including disconnected players).  On an empty list the JS
expression is `undefined`, here `none`. -/
def authDrawer (room : RoomState) : Option Player :=
  room.players.get? (room.turnIndex % room.players.length)

/-- `broadcastRoomState`'s payload: the displayed drawer is indexed over the
CONNECTED players only. `now` stands for `Date.now()`. -/
def roomStatePayload (room : RoomState) (now : Nat) : StatePayload :=
  let connectedPlayers := room.players.filter (·.connected)
  let drawer := connectedPlayers.get? (room.turnIndex % connectedPlayers.length)
  let timeLeftMs := room.roundEndAt.map (fun e => e - now)
  { roomId := room.id
    players := connectedPlayers.map toPub
    round := room.round
    turnPlayerId := drawer.map (·.id)
    drawerId := if room.phase = .lobby then none else drawer.map (·.id)
    phase := room.phase
    timeLeft := timeLeftMs.map (fun ms => (ms + 999) / 1000) }

/-- The drawer id shown to clients in the `room:state` broadcast. -/
def displayedDrawerId (room : RoomState) (now : Nat) : Option String :=
  (roomStatePayload room now).drawerId

/-- `players.reduce((prev, curr) => curr.score > prev.score ? curr : prev)`:
`none` when the list is empty (JS throws a `TypeError` there). -/
def topPlayer? (l : List Player) : Option Player :=
  match l with
  | [] => none
  | h :: t => some (t.foldl (fun prev curr => if prev.score < curr.score then curr else prev) h)

/-- `checkGameEnd`.  The round-cap branch is checked FIRST; inside it the
empty-list reduce throws, modelled as `none`. -/
def checkGameEnd (room : RoomState) : Option GameEnd :=
  if MAX_ROUNDS ≤ room.round then
    match topPlayer? room.players with
    | none => none
    | some top =>
      if 1 < (room.players.filter (·.score = top.score)).length then
        some (.ended top (.tieAtCap top.score))
      else
        some (.ended top (.capWin top.name top.score))
  else
    match room.players.find? (fun p => WINNING_SCORE ≤ p.score) with
    | some w => some (.ended w (.earlyWin w.name))
    | none => some GameEnd.notEnded

/-- Stable insertion of a player into a descending-by-score list; models the
stable `Array.prototype.sort((a, b) => b.score - a.score)`. -/
def insertDesc (p : PPub) : List PPub → List PPub
  | [] => [p]
  | q :: qs => if p.score < q.score then q :: insertDesc p qs else p :: q :: qs

/-- `finalScores` sorting: stable, descending by score. -/
def sortDesc (l : List PPub) : List PPub := l.foldr insertDesc []

/-- Update the FIRST list element satisfying `pred` (models JS
`arr.find(...)` followed by in-place mutation of the found object). -/
def updateFirst (pred : Player → Bool) (f : Player → Player) : List Player → List Player
  | [] => []
  | p :: ps => if pred p then f p :: ps else p :: updateFirst pred f ps

/-- `endRound(room, reason)`: enter intermission, cancel the timer, emit
`round:ended`, evaluate `checkGameEnd` (which may throw — `none`), then
either announce game over, or arm the intermission timer (≥2 players), or
fall back to the lobby. -/
def endRound (room : RoomState) (reason : EndReason) (now : Nat) :
    Option (RoomState × List Emit) :=
  let room1 := { room with phase := .intermission, timer := none }
  let es0 := [Emit.roundEnded room.id reason]
  match checkGameEnd room1 with
  | none => none
  | some (.ended w r) =>
    let room2 := { room1 with phase := .gameover }
    some (room2, es0 ++
      [Emit.gameOver ⟨room.id, some (toPub w), r, sortDesc (room1.players.map toPub)⟩,
       Emit.roomState (roomStatePayload room2 now), Emit.roomsList])
  | some .notEnded =>
    let es1 := es0 ++ [Emit.roomState (roomStatePayload room1 now), Emit.roomsList]
    if 2 ≤ room1.players.length then
      some ({ room1 with
        timer := some TimerKind.intermission,
        roundEndAt := some (now + INTERMISSION_MS) }, es1)
    else
      let room2 := { room1 with word := none, roundEndAt := none, phase := .lobby }
      some (room2, es1 ++ [Emit.roomState (roomStatePayload room2 now)])

/-- `startRound(room)`: with fewer than 2 players fall back to the lobby
(the existing timer is NOT cleared there); otherwise enter drawing, clear
the guessed set, pick the word `w`, arm the round timer, emit
`round:clear`, the state broadcast, the rooms list, and finally the private
`round:word` delivery to the drawer. -/
def startRound (room : RoomState) (w : String) (now : Nat) : RoomState × List Emit :=
  if room.players.length < 2 then
    let room1 := { room with phase := .lobby, word := none }
    (room1, [Emit.roundEnded room.id .timeout, Emit.roomState (roomStatePayload room1 now)])
  else
    let drawer := (authDrawer room).getD defaultPlayer
    let room1 := { room with
      phase := .drawing, guessed := [], word := some w,
      roundEndAt := some (now + ROUND_MS), timer := some TimerKind.round }
    (room1, [Emit.roundClear room.id, Emit.roomState (roomStatePayload room1 now),
             Emit.roomsList, Emit.roundWord drawer.id w])

/-! ## Socket handlers (per-room part) -/

/-- The reconnection test of `player:join`: same display name, currently
disconnected, and within the 30s grace window. -/
def reconnCond (cleanName : String) (now : Nat) (p : Player) : Bool :=
  p.name = cleanName && !p.connected &&
    (match p.disconnectedAt with
     | some t => decide (now - t < 30000)
     | none => false)

/-- The player-adding step of `player:join`: reconnection reclaim, existing
rename, or (capacity permitting) a fresh player appended after purging old
disconnected players with the same name.  `none` is the full-room
rejection. -/
def joinAddPlayer (room : RoomState) (sid cleanName : String) (now : Nat) :
    Option RoomState :=
  match room.players.find? (reconnCond cleanName now) with
  | some _ =>
    some { room with
      players := updateFirst (reconnCond cleanName now)
        (fun p => { p with id := sid, connected := true, disconnectedAt := none })
        room.players }
  | none =>
    match room.players.find? (·.id = sid) with
    | some _ =>
      some { room with
        players := updateFirst (·.id = sid)
          (fun p => { p with name := cleanName, connected := true, disconnectedAt := none })
          room.players }
    | none =>
      if MAX_PLAYERS_PER_ROOM ≤ (room.players.filter (·.connected)).length then
        none
      else
        some { room with
          players := (room.players.filter (fun p => !(p.name = cleanName && !p.connected))) ++
            [⟨sid, cleanName, 0, true, none⟩] }

/-- `player:join` handler, room-local part (after the previous-room cleanup,
which acts on a different room — see `prevRoomRemove`).  `w` is the word the
word bank would pick if the round auto-starts. -/
def playerJoin (room : RoomState) (sid name : String) (w : String) (now : Nat) :
    RoomState × List Emit :=
  let cleanName := jsTrim name
  if cleanName = "" then (room, [Emit.joinError sid])
  else
    match joinAddPlayer room sid cleanName now with
    | none => (room, [Emit.joinError sid, Emit.roomsList])
    | some room1 =>
      let es0 := [Emit.chatMsg room.id "System" (cleanName ++ " joined the room") true]
      if 2 ≤ room1.players.length ∧ room1.phase = .lobby then
        let pr := startRound room1 w now
        (pr.1, es0 ++ pr.2 ++ [Emit.roomsList])
      else
        (room1, es0 ++ [Emit.roomState (roomStatePayload room1 now), Emit.roomsList])

/-- `player:leave` handler, room-local part.  When the player sequence
becomes empty the registry deletes the room SYNCHRONOUSLY (see
`playerLeaveReg`); with fewer than 2 players left the room drops to the
lobby (without clearing the timer); a leaving drawer during drawing ends
the round. -/
def playerLeave (room : RoomState) (sid : String) (now : Nat) :
    Option (RoomState × List Emit) :=
  let idx? := room.players.findIdx? (·.id = sid)
  let wasDrawer : Bool :=
    match idx? with
    | some i => i == room.turnIndex % (if room.players.length = 0 then 1 else room.players.length)
    | none => false
  let leavingName :=
    match idx? with
    | some i => ((room.players.get? i).getD defaultPlayer).name
    | none => "Player"
  let room1 :=
    match idx? with
    | some i =>
      { room with
        players := room.players.eraseIdx i,
        turnIndex := if i < room.turnIndex then room.turnIndex - 1 else room.turnIndex }
    | none => room
  let es0 := [Emit.chatMsg room.id "System" (leavingName ++ " left the room") true]
  if room1.players.length = 0 then
    some (room1, es0 ++ [Emit.roomsList])
  else if room1.players.length < 2 then
    let room2 := { room1 with phase := .lobby, word := none }
    some (room2, es0 ++ [Emit.roomState (roomStatePayload room2 now), Emit.roomsList])
  else if wasDrawer ∧ room1.phase = .drawing then
    (endRound room1 .timeout now).map (fun pr => (pr.1, es0 ++ pr.2))
  else
    some (room1, es0 ++ [Emit.roomState (roomStatePayload room1 now), Emit.roomsList])

/-- `disconnect` handler, room-local part: the player is kept, marked
disconnected.  Zero connected players schedules a 35s deferred deletion;
fewer than 2 connected drops to the lobby; a disconnecting drawer during
drawing ends the round. -/
def disconnectP (room : RoomState) (sid : String) (now : Nat) :
    Option (RoomState × List Emit) :=
  match room.players.find? (·.id = sid) with
  | none => some (room, [])
  | some p =>
    let wasDrawer := (authDrawer room).map (·.id) = some sid
    let room1 := { room with
      players := updateFirst (·.id = sid)
        (fun q => { q with connected := false, disconnectedAt := some now })
        room.players }
    let connectedPlayers := room1.players.filter (·.connected)
    if connectedPlayers.length = 0 then
      some (room1, [Emit.scheduleDeleteCheck room.id 35000])
    else
      let es0 := [Emit.chatMsg room.id "System"
        (p.name ++ " disconnected (can rejoin within 30 seconds)") true]
      if connectedPlayers.length < 2 then
        let room2 := { room1 with phase := .lobby, word := none }
        some (room2, es0 ++ [Emit.roomState (roomStatePayload room2 now), Emit.roomsList])
      else if wasDrawer ∧ room1.phase = .drawing then
        (endRound room1 .timeout now).map (fun pr => (pr.1, es0 ++ pr.2))
      else
        some (room1, es0 ++ [Emit.roomState (roomStatePayload room1 now), Emit.roomsList])

/-- `chat:message` handler: a trimmed non-empty message from a room member
is broadcast unless the word is truthy and the normalized text equals the
normalized word, in which case it is silently suppressed. -/
def chatMessage (room : RoomState) (sid msg : String) : RoomState × List Emit :=
  match room.players.find? (·.id = sid) with
  | none => (room, [])
  | some player =>
    let text := jsTrim msg
    if text = "" then (room, [])
    else if jsTruthy room.word && normalize text = normalize (room.word.getD "") then
      (room, [])
    else
      (room, [Emit.chatMsg room.id player.name text false])

/-- `guess:submit` handler: guards (drawing phase, member, drawer present,
no self-guess, non-empty normalized guess, first-correct-only), then on a
correct guess award +2 to the guesser and +1 to the first player carrying
the drawer's id, record the guesser, emit the score update and the chat
announcement, and end the round. -/
def guessSubmit (room : RoomState) (sid g : String) (now : Nat) :
    Option (RoomState × List Emit) :=
  if room.phase ≠ .drawing then some (room, [])
  else
    match room.players.find? (·.id = sid) with
    | none => some (room, [])
    | some player =>
      match authDrawer room with
      | none => some (room, [])
      | some drawer =>
        if drawer.id = sid then some (room, [])
        else
          let guessNorm := normalize g
          let wordNorm := normalize (room.word.getD "")
          if guessNorm = "" then some (room, [])
          else if room.guessed.length ≠ 0 then some (room, [])
          else if guessNorm = wordNorm then
            let ps1 := updateFirst (·.id = sid) (fun q => { q with score := q.score + 2 })
              room.players
            let ps2 := updateFirst (·.id = drawer.id) (fun q => { q with score := q.score + 1 })
              ps1
            let room1 := { room with players := ps2, guessed := room.guessed ++ [sid] }
            let es0 := [Emit.scoreUpdate room.id (ps2.map toPub),
                        Emit.chatMsg room.id "System" (player.name ++ " guessed it!") true]
            (endRound room1 .guessed now).map (fun pr => (pr.1, es0 ++ pr.2))
          else some (room, [])

/-- `round:skip` handler: only the authoritative drawer may skip. -/
def skipRound (room : RoomState) (sid : String) (now : Nat) :
    Option (RoomState × List Emit) :=
  match authDrawer room with
  | none => some (room, [])
  | some drawer =>
    if drawer.id = sid then endRound room .skipped now else some (room, [])

/-- `round:start` handler. -/
def roundStartReq (room : RoomState) (w : String) (now : Nat) : RoomState × List Emit :=
  if 2 ≤ room.players.length ∧ room.phase ≠ .drawing then startRound room w now
  else (room, [])

/-- `game:restart` handler. -/
def restartGame (room : RoomState) (w : String) (now : Nat) : RoomState × List Emit :=
  if room.phase ≠ .gameover then (room, [])
  else
    let room1 := { room with
      players := room.players.map (fun p => { p with score := 0 }),
      round := 1, turnIndex := 0, word := none, guessed := [],
      phase := if 2 ≤ room.players.length then .drawing else .lobby }
    let es0 := [Emit.chatMsg room.id "System" "Game restarted! Starting fresh..." true]
    if 2 ≤ room1.players.length then
      let pr := startRound room1 w now
      (pr.1, pr.2 ++ es0)
    else
      (room1, [Emit.roomState (roomStatePayload room1 now)] ++ es0)

/-- Expiry of the armed per-room timer.  A round timer runs
`endRound(room, "timeout")`; an intermission timer rotates the turn,
increments the round, clears the guessed set and word, and starts the next
round with word `w`.  (With an empty player list the JS rotation computes
`turnIndex % 0 = NaN`; that corner is only reachable after the room has
already been removed from the registry, and the drawer lookup yields none
on an empty list either way; here `%` is the Nat remainder.) -/
def timerFireEv (room : RoomState) (w : String) (now : Nat) :
    Option (RoomState × List Emit) :=
  match room.timer with
  | none => some (room, [])
  | some .round =>
    let room1 := { room with timer := none, roundEndAt := none }
    (endRound room1 .timeout now).map
      (fun pr => (pr.1, [Emit.roomState (roomStatePayload room1 now)] ++ pr.2))
  | some .intermission =>
    let room1 := { room with timer := none, roundEndAt := none }
    let room2 := { room1 with
      turnIndex := (room1.turnIndex + 1) % room1.players.length,
      round := room1.round + 1, guessed := [], word := none }
    let pr := startRound room2 w now
    some (pr.1, [Emit.roomState (roomStatePayload room1 now)] ++ pr.2)

/-- Previous-room removal inside the `player:join` handler: the socket is
filtered out of its previous room; if that room becomes empty its deletion
is only SCHEDULED (2s delay, re-checked at fire time); otherwise the turn
index is clamped and the state is broadcast.  The phase, word, deadline and
timer of the previous room are never touched. -/
def prevRoomRemove (room : RoomState) (sid : String) (now : Nat) : RoomState × List Emit :=
  let room1 := { room with players := room.players.filter (·.id ≠ sid) }
  if room1.players.length = 0 then
    (room1, [Emit.scheduleDeleteCheck room.id 2000])
  else
    let room2 := if room1.players.length ≤ room1.turnIndex then { room1 with turnIndex := 0 }
                 else room1
    (room2, [Emit.roomState (roomStatePayload room2 now)])

/-! ## Registry (the global `rooms` map) -/

/-- The room registry, insertion-ordered. -/
abbrev Registry := List (String × RoomState)

def findRoom (reg : Registry) (rid : String) : Option RoomState :=
  (List.find? (fun kv => kv.1 = rid) reg).map (·.2)

def eraseRoom (reg : Registry) (rid : String) : Registry :=
  List.filter (fun kv => kv.1 ≠ rid) reg

def updateRoomReg (reg : Registry) (rid : String) (r : RoomState) : Registry :=
  List.map (fun kv => if kv.1 = rid then (kv.1, r) else kv) reg

/-- Registry-level `player:leave`: on an emptied room the deletion happens
synchronously inside the handler itself. -/
def playerLeaveReg (reg : Registry) (rid sid : String) (now : Nat) :
    Option (Registry × List Emit) :=
  match findRoom reg rid with
  | none => some (reg, [])
  | some room =>
    (playerLeave room sid now).map (fun pr =>
      if pr.1.players.length = 0 then (eraseRoom reg rid, pr.2)
      else (updateRoomReg reg rid pr.1, pr.2))

/-- Registry-level previous-room cleanup of `player:join`: the (possibly
emptied) previous room stays in the registry; only a deferred deletion
check is scheduled. -/
def prevRoomCleanup (reg : Registry) (prevId sid : String) (now : Nat) :
    Registry × List Emit :=
  match findRoom reg prevId with
  | none => (reg, [])
  | some room =>
    let pr := prevRoomRemove room sid now
    (updateRoomReg reg prevId pr.1, pr.2)

/-- The deferred deletion firing after the 2s delay: the room is deleted
only if it is STILL empty at fire time. -/
def deferredDeleteFire (reg : Registry) (rid : String) : Registry :=
  match findRoom reg rid with
  | none => reg
  | some room => if room.players.length = 0 then eraseRoom reg rid else reg

/-! ## The event machine (single room) -/

/-- Inbound events and timer expiries for one room.  `now` stands for
`Date.now()` at handling time and `w` for the word the word bank picks when
a round starts. -/
inductive Event where
  | join (sid name w : String) (now : Nat)
  | leave (sid : String) (now : Nat)
  | disconnect (sid : String) (now : Nat)
  | chat (sid text : String)
  | guess (sid text : String) (now : Nat)
  | skip (sid : String) (now : Nat)
  | startReq (w : String) (now : Nat)
  | restart (w : String) (now : Nat)
  | timerFire (w : String) (now : Nat)
deriving DecidableEq, Repr

/-- One handler dispatch.  `none` is an uncaught handler exception. -/
def applyEvent (room : RoomState) (e : Event) : Option RoomState :=
  match e with
  | .join sid name w now => some (playerJoin room sid name w now).1
  | .leave sid now => (playerLeave room sid now).map (·.1)
  | .disconnect sid now => (disconnectP room sid now).map (·.1)
  | .chat sid text => some (chatMessage room sid text).1
  | .guess sid text now => (guessSubmit room sid text now).map (·.1)
  | .skip sid now => (skipRound room sid now).map (·.1)
  | .startReq w now => some (roundStartReq room w now).1
  | .restart w now => some (restartGame room w now).1
  | .timerFire w now => (timerFireEv room w now).map (·.1)

/-- Run a sequence of events; `none` once any handler throws. -/
def applyEvents (room : RoomState) (tr : List Event) : Option RoomState :=
  tr.foldl (fun o e => o.bind (fun r => applyEvent r e)) (some room)

/-- How one handler step may change the guessed set: it is preserved,
cleared, or (only when it was empty) set to a singleton — and in the
singleton case the round has been ended in the same step. -/
def GuessOk (a b : RoomState) : Prop :=
  (b.guessed = a.guessed ∨ b.guessed = [] ∨ (a.guessed = [] ∧ ∃ x, b.guessed = [x])) ∧
    (a.guessed = [] → b.guessed ≠ [] → b.phase ≠ .drawing)

/-- Extract the first `game:over` payload from an emission list. -/
def gameOverPayload? (es : List Emit) : Option GameOverPayload :=
  es.findSome? (fun e => match e with | .gameOver p => some p | _ => none)

/-- Is an emission a deferred-deletion scheduling? -/
def isSchedDelete : Emit → Bool
  | .scheduleDeleteCheck _ _ => true
  | _ => false

/-- The score of the first player carrying a given id, if any. -/
def scoreOf (ps : List Player) (pid : String) : Option Nat :=
  (ps.find? (fun p => p.id = pid)).map (·.score)

/-! ## Concrete rooms, registries and traces used in the theorems below -/

def pA10 : Player := ⟨"A", "Alice", 10, true, none⟩
def pB11 : Player := ⟨"B", "Bob", 11, true, none⟩

/-- Round 6 reached with Alice at the win threshold but Bob above her. -/
def roomThresholdAtCap : RoomState :=
  { roomInit "r1" with players := [pA10, pB11], round := 6, phase := .drawing }

/-- A fresh concrete room for the early-win instance: score 10 on round 3. -/
def roomEarlyWin : RoomState :=
  { roomInit "r2" with
    players := [⟨"P", "Pat", 10, true, none⟩, ⟨"Q", "Quinn", 7, true, none⟩],
    round := 3, phase := .drawing }

/-- Round 6 reached with both players tied at 5 points. -/
def roomTiedAtCap : RoomState :=
  { roomInit "r3" with
    players := [⟨"A", "Alice", 5, true, none⟩, ⟨"B", "Bob", 5, true, none⟩],
    round := 6, phase := .drawing }

/-- A second tied-at-cap room, used to instantiate the amended tie theorem. -/
def roomTiedAtCap2 : RoomState :=
  { roomInit "r4" with
    players := [⟨"X", "Xo", 4, true, none⟩, ⟨"Y", "Yu", 4, true, none⟩],
    round := 7, phase := .drawing }

/-- A registry holding one room with a single player, about to leave. -/
def regOnePlayer : Registry :=
  [("r5", { roomInit "r5" with players := [⟨"A", "Al", 0, true, none⟩] })]

/-- A single-player drawing-phase room, and a registry holding it, for the
deferred-deletion (join-path) witness. -/
def room6 : RoomState :=
  { roomInit "r6" with
    players := [⟨"A", "Al", 3, true, none⟩],
    phase := .drawing, word := some "Cat" }

def regPrevRoom : Registry := [("r6", room6)]

/-- A registry in which room r6 has been re-occupied before the deferred
deletion fires. -/
def regRejoined : Registry :=
  [("r6", { roomInit "r6" with players := [⟨"Z", "Zoe", 0, true, none⟩] })]

/-- A drawing-phase room whose round has already been solved this round. -/
def roomSolved : RoomState :=
  { roomInit "r7" with
    players := [⟨"A", "Al", 1, true, none⟩, ⟨"B", "Bo", 2, true, none⟩],
    phase := .drawing, word := some "Dog", guessed := ["B"],
    roundEndAt := some 60000, timer := some TimerKind.round }

/-- A drawing-phase room awaiting its first guess (drawer A, word Cat). -/
def roomAwaitGuess : RoomState :=
  { roomInit "r8" with
    players := [⟨"A", "Al", 3, true, none⟩, ⟨"B", "Bo", 1, true, none⟩],
    phase := .drawing, word := some "Cat",
    roundEndAt := some 60000, timer := some TimerKind.round }

/-- A drawing-phase room used for the previous-room removal witness:
the leaving socket A is the current drawer. -/
def roomDrawerPrev : RoomState :=
  { roomInit "r9" with
    players := [⟨"A", "Al", 2, true, none⟩, ⟨"B", "Bo", 1, true, none⟩],
    phase := .drawing, word := some "Sun",
    roundEndAt := some 60000, timer := some TimerKind.round }

/-- Two joins then a correct (case/space-insensitive) guess by B. -/
def trGuess : List Event :=
  [.join "A" "Al" "Cat" 0, .join "B" "Bo" "Cat" 0, .guess "B" " CAT " 5]

/-- The state `trGuess` reaches: drawer A +1, guesser B +2, round solved. -/
def sAfterGuess : RoomState :=
  { id := "r", players := [⟨"A", "Al", 1, true, none⟩, ⟨"B", "Bo", 2, true, none⟩],
    word := some "Cat", round := 1, turnIndex := 0, guessed := ["B"],
    phase := .intermission, roundEndAt := some 3005,
    timer := some TimerKind.intermission }

/-- Five timed-out rounds bring the room to round 6 with the round timer
armed; both players then leave, emptying the room without clearing the
timer. -/
def trEmptyAtCap : List Event :=
  [.join "A" "Alice" "Cat" 0, .join "B" "Bob" "Cat" 1,
   .timerFire "Dog" 10, .timerFire "Dog" 11,
   .timerFire "Dog" 12, .timerFire "Dog" 13,
   .timerFire "Dog" 14, .timerFire "Dog" 15,
   .timerFire "Dog" 16, .timerFire "Dog" 17,
   .timerFire "Dog" 18, .timerFire "Dog" 19,
   .leave "A" 20, .leave "B" 21]

/-- `trEmptyAtCap` followed by the pending round-timer expiry. -/
def trCrash : List Event := trEmptyAtCap ++ [.timerFire "Dog" 22]

/-- Three players join; two rounds pass; the round-2 drawer B disconnects;
the next round starts with a disconnected player interleaved in turn
order. -/
def trInterleaved : List Event :=
  [.join "A" "Alice" "Cat" 0, .join "B" "Bob" "Cat" 1, .join "C" "Carol" "Cat" 2,
   .timerFire "Dog" 60001, .timerFire "Dog" 63002,
   .disconnect "B" 63500, .timerFire "Sun" 66600]

/-! ## Basic lemmas about the round transitions -/

theorem endRound_spec (room : RoomState) (r : EndReason) (t : Nat) (s : RoomState)
    (es : List Emit) (h : endRound room r t = some (s, es)) :
    s.players = room.players ∧ s.guessed = room.guessed ∧ s.phase ≠ .drawing ∧
      s.round = room.round ∧ s.turnIndex = room.turnIndex := by
  simp only [endRound] at h
  split at h
  · exact Option.noConfusion h
  · simp only [Option.some.injEq, Prod.mk.injEq] at h
    obtain ⟨h1, -⟩ := h
    subst h1
    refine ⟨rfl, rfl, by simp, rfl, rfl⟩
  · split at h <;>
      (simp only [Option.some.injEq, Prod.mk.injEq] at h
       obtain ⟨h1, -⟩ := h
       subst h1
       exact ⟨rfl, rfl, by simp, rfl, rfl⟩)

theorem checkGameEnd_isSome (room : RoomState) (h : room.players ≠ []) :
    (checkGameEnd room).isSome := by
  rcases hl : room.players with - | ⟨a, l⟩
  · exact absurd hl h
  · simp only [checkGameEnd, topPlayer?, hl]
    split
    · split <;> simp
    · split <;> simp

theorem endRound_isSome (room : RoomState) (r : EndReason) (t : Nat)
    (h : room.players ≠ []) : (endRound room r t).isSome := by
  simp only [endRound]
  have hs := checkGameEnd_isSome { room with phase := .intermission, timer := none }
    (by simpa using h)
  obtain ⟨ge, hge⟩ := Option.isSome_iff_exists.mp hs
  rw [hge]
  cases ge with
  | notEnded =>
    split
    · simp_all
    · simp_all
    · split <;> simp
  | ended w' r' =>
    split
    · simp_all
    · simp
    · simp_all

theorem startRound_fst (room : RoomState) (w : String) (t : Nat) :
    ((startRound room w t).1.players = room.players) ∧
      ((startRound room w t).1.guessed = room.guessed ∨
        (startRound room w t).1.guessed = []) := by
  simp only [startRound]
  split
  · exact ⟨rfl, Or.inl rfl⟩
  · exact ⟨rfl, Or.inr rfl⟩

/-! ## The guessed-set evolution of every handler -/

theorem guessOk_easy {a b : RoomState}
    (h : b.guessed = a.guessed ∨ b.guessed = []) : GuessOk a b := by
  refine ⟨Or.imp id Or.inl h, ?_⟩
  intro h0 h1
  rcases h with h | h
  · exact absurd (h.trans h0) h1
  · exact absurd h h1

theorem joinAddPlayer_guessed (room : RoomState) (sid n : String) (t : Nat)
    (r1 : RoomState) (h : joinAddPlayer room sid n t = some r1) :
    r1.guessed = room.guessed := by
  simp only [joinAddPlayer] at h
  split at h
  · rw [Option.some.injEq] at h; subst h; rfl
  · split at h
    · rw [Option.some.injEq] at h; subst h; rfl
    · split at h
      · exact Option.noConfusion h
      · rw [Option.some.injEq] at h; subst h; rfl

theorem startRound_guessed_nil (room : RoomState) (w : String) (t : Nat)
    (h : room.guessed = []) : (startRound room w t).1.guessed = [] := by
  rcases (startRound_fst room w t).2 with h2 | h2
  · rw [h2, h]
  · exact h2

theorem playerJoin_guessed (room : RoomState) (sid n w : String) (t : Nat) :
    (playerJoin room sid n w t).1.guessed = room.guessed ∨
      (playerJoin room sid n w t).1.guessed = [] := by
  simp only [playerJoin]
  split
  · exact Or.inl rfl
  · split
    · exact Or.inl rfl
    · rename_i room1 heq
      have hg := joinAddPlayer_guessed room sid _ t room1 heq
      split
      · exact ((startRound_fst room1 w t).2).imp (fun h2 => h2.trans hg) id
      · exact Or.inl hg

theorem playerLeave_guessed (room : RoomState) (sid : String) (t : Nat)
    (s : RoomState) (es : List Emit) (h : playerLeave room sid t = some (s, es)) :
    s.guessed = room.guessed := by
  simp only [playerLeave] at h
  repeat' split at h
  all_goals
    first
      | (simp only [Option.some.injEq, Prod.mk.injEq] at h
         obtain ⟨h1, -⟩ := h; subst h1; rfl)
      | (rw [Option.map_eq_some'] at h
         obtain ⟨pr, hpr, h2⟩ := h
         have h1 : pr.1 = s := congrArg Prod.fst h2
         rw [← h1]
         exact (endRound_spec _ _ _ _ _ hpr).2.1)

theorem disconnectP_guessed (room : RoomState) (sid : String) (t : Nat)
    (s : RoomState) (es : List Emit) (h : disconnectP room sid t = some (s, es)) :
    s.guessed = room.guessed := by
  simp only [disconnectP] at h
  repeat' split at h
  all_goals
    first
      | (simp only [Option.some.injEq, Prod.mk.injEq] at h
         obtain ⟨h1, -⟩ := h; subst h1; rfl)
      | (rw [Option.map_eq_some'] at h
         obtain ⟨pr, hpr, h2⟩ := h
         have h1 : pr.1 = s := congrArg Prod.fst h2
         rw [← h1]
         exact (endRound_spec _ _ _ _ _ hpr).2.1)

theorem chatMessage_fst (room : RoomState) (sid m : String) :
    (chatMessage room sid m).1 = room := by
  simp only [chatMessage]
  split
  · rfl
  · split
    · rfl
    · split <;> rfl

theorem skipRound_guessed (room : RoomState) (sid : String) (t : Nat)
    (s : RoomState) (es : List Emit) (h : skipRound room sid t = some (s, es)) :
    s.guessed = room.guessed := by
  simp only [skipRound] at h
  repeat' split at h
  all_goals
    first
      | (simp only [Option.some.injEq, Prod.mk.injEq] at h
         obtain ⟨h1, -⟩ := h; subst h1; rfl)
      | (exact (endRound_spec _ _ _ _ _ h).2.1)

theorem roundStartReq_guessed (room : RoomState) (w : String) (t : Nat) :
    (roundStartReq room w t).1.guessed = room.guessed ∨
      (roundStartReq room w t).1.guessed = [] := by
  simp only [roundStartReq]
  split
  · exact (startRound_fst room w t).2
  · exact Or.inl rfl

theorem restartGame_guessed (room : RoomState) (w : String) (t : Nat) :
    (restartGame room w t).1.guessed = room.guessed ∨
      (restartGame room w t).1.guessed = [] := by
  simp only [restartGame]
  split
  · exact Or.inl rfl
  · split
    · exact Or.inr (startRound_guessed_nil _ w t rfl)
    · exact Or.inr rfl

theorem timerFireEv_guessed (room : RoomState) (w : String) (t : Nat)
    (s : RoomState) (es : List Emit) (h : timerFireEv room w t = some (s, es)) :
    s.guessed = room.guessed ∨ s.guessed = [] := by
  rcases htm : room.timer with - | k
  · simp only [timerFireEv, htm] at h
    simp only [Option.some.injEq, Prod.mk.injEq] at h
    obtain ⟨h1, -⟩ := h; subst h1; exact Or.inl rfl
  · cases k <;> simp only [timerFireEv, htm] at h
    · rw [Option.map_eq_some'] at h
      obtain ⟨pr, hpr, h2⟩ := h
      have h1 : pr.1 = s := congrArg Prod.fst h2
      rw [← h1]
      exact Or.inl (endRound_spec _ _ _ _ _ hpr).2.1
    · simp only [Option.some.injEq, Prod.mk.injEq] at h
      obtain ⟨h1, -⟩ := h
      subst h1
      exact Or.inr (startRound_guessed_nil _ w t rfl)

/-- Once a correct guess has been recorded this round, any further
`guess:submit` is a strict no-op: same state, no emissions. -/
theorem guessSubmit_noop (room : RoomState) (sid g : String) (t : Nat)
    (h : room.guessed ≠ []) : guessSubmit room sid g t = some (room, []) := by
  have hlen : room.guessed.length ≠ 0 := by
    simpa [List.length_eq_zero] using h
  simp only [guessSubmit]
  repeat' split
  all_goals rfl

theorem guessSubmit_guessOk (room : RoomState) (sid g : String) (t : Nat)
    (s : RoomState) (es : List Emit) (h : guessSubmit room sid g t = some (s, es)) :
    GuessOk room s := by
  rcases hg : room.guessed with - | ⟨x, xs⟩
  · simp only [guessSubmit, hg] at h
    repeat' split at h
    all_goals
      first
        | (simp only [Option.some.injEq, Prod.mk.injEq] at h
           obtain ⟨h1, -⟩ := h; subst h1; exact guessOk_easy (Or.inl rfl))
        | (rw [Option.map_eq_some'] at h
           obtain ⟨pr, hpr, h2⟩ := h
           have h1 : pr.1 = s := congrArg Prod.fst h2
           rw [← h1]
           have hsp := endRound_spec _ _ _ _ _ hpr
           refine ⟨Or.inr (Or.inr ⟨hg, sid, ?_⟩), fun _ _ => hsp.2.2.1⟩
           rw [hsp.2.1]; rfl)
  · rw [guessSubmit_noop room sid g t (by rw [hg]; simp)] at h
    simp only [Option.some.injEq, Prod.mk.injEq] at h
    obtain ⟨h1, -⟩ := h; subst h1
    exact guessOk_easy (Or.inl rfl)

theorem applyEvent_guessOk (a : RoomState) (e : Event) (b : RoomState)
    (h : applyEvent a e = some b) : GuessOk a b := by
  cases e with
  | join sid name w now =>
    simp only [applyEvent, Option.some.injEq] at h
    subst h
    exact guessOk_easy (playerJoin_guessed a sid name w now)
  | leave sid now =>
    simp only [applyEvent, Option.map_eq_some'] at h
    obtain ⟨⟨s, es⟩, hpr, h1⟩ := h
    subst h1
    exact guessOk_easy (Or.inl (playerLeave_guessed a sid now s es hpr))
  | disconnect sid now =>
    simp only [applyEvent, Option.map_eq_some'] at h
    obtain ⟨⟨s, es⟩, hpr, h1⟩ := h
    subst h1
    exact guessOk_easy (Or.inl (disconnectP_guessed a sid now s es hpr))
  | chat sid text =>
    simp only [applyEvent, Option.some.injEq] at h
    subst h
    exact guessOk_easy (Or.inl (by rw [chatMessage_fst]))
  | guess sid text now =>
    simp only [applyEvent, Option.map_eq_some'] at h
    obtain ⟨⟨s, es⟩, hpr, h1⟩ := h
    subst h1
    exact guessSubmit_guessOk a sid text now s es hpr
  | skip sid now =>
    simp only [applyEvent, Option.map_eq_some'] at h
    obtain ⟨⟨s, es⟩, hpr, h1⟩ := h
    subst h1
    exact guessOk_easy (Or.inl (skipRound_guessed a sid now s es hpr))
  | startReq w now =>
    simp only [applyEvent, Option.some.injEq] at h
    subst h
    exact guessOk_easy (roundStartReq_guessed a w now)
  | restart w now =>
    simp only [applyEvent, Option.some.injEq] at h
    subst h
    exact guessOk_easy (restartGame_guessed a w now)
  | timerFire w now =>
    simp only [applyEvent, Option.map_eq_some'] at h
    obtain ⟨⟨s, es⟩, hpr, h1⟩ := h
    subst h1
    exact guessOk_easy (timerFireEv_guessed a w now s es hpr)

theorem applyEvents_none (tr : List Event) :
    List.foldl (fun o e => o.bind (fun r => applyEvent r e)) none tr = none := by
  induction tr with
  | nil => rfl
  | cons e tr ih => simpa using ih

theorem guessed_le_one_aux (tr : List Event) :
    ∀ a s : RoomState, a.guessed.length ≤ 1 → applyEvents a tr = some s →
      s.guessed.length ≤ 1 := by
  induction tr with
  | nil =>
    intro a s ha h
    simp only [applyEvents, List.foldl_nil, Option.some.injEq] at h
    subst h; exact ha
  | cons e tr ih =>
    intro a s ha h
    simp only [applyEvents, List.foldl_cons, Option.some_bind] at h
    rcases hae : applyEvent a e with - | b
    · rw [hae, applyEvents_none tr] at h
      exact Option.noConfusion h
    · rw [hae] at h
      have hok := applyEvent_guessOk a e b hae
      have hb : b.guessed.length ≤ 1 := by
        rcases hok.1 with h1 | h1 | ⟨h0, x, h1⟩
        · rw [h1]; exact ha
        · rw [h1]; simp
        · rw [h1]; simp
      exact ih b s hb h

/-! ## Sorting and score-update lemmas -/

theorem mem_insertDesc (x p : PPub) (l : List PPub) :
    x ∈ insertDesc p l ↔ x = p ∨ x ∈ l := by
  induction l with
  | nil => simp [insertDesc]
  | cons q qs ih =>
    simp only [insertDesc]
    split
    · simp only [List.mem_cons, ih]
      tauto
    · simp [List.mem_cons]

theorem pairwise_insertDesc (p : PPub) (l : List PPub)
    (h : l.Pairwise (fun a b => b.score ≤ a.score)) :
    (insertDesc p l).Pairwise (fun a b => b.score ≤ a.score) := by
  induction l with
  | nil => simp [insertDesc]
  | cons q qs ih =>
    rw [List.pairwise_cons] at h
    obtain ⟨hq, hqs⟩ := h
    simp only [insertDesc]
    split
    · rename_i hpq
      rw [List.pairwise_cons]
      refine ⟨?_, ih hqs⟩
      intro x hx
      rcases (mem_insertDesc x p qs).mp hx with rfl | hx'
      · exact le_of_lt hpq
      · exact hq x hx'
    · rename_i hpq
      rw [List.pairwise_cons]
      refine ⟨?_, List.pairwise_cons.mpr ⟨hq, hqs⟩⟩
      intro x hx
      rcases List.mem_cons.mp hx with rfl | hx'
      · omega
      · exact le_trans (hq x hx') (by omega)

theorem sortDesc_sorted (l : List PPub) :
    (sortDesc l).Pairwise (fun a b => b.score ≤ a.score) := by
  induction l with
  | nil => simp [sortDesc]
  | cons p ps ih => exact pairwise_insertDesc p _ ih

theorem updateFirst_length (pred : Player → Bool) (f : Player → Player)
    (ps : List Player) : (updateFirst pred f ps).length = ps.length := by
  induction ps with
  | nil => rfl
  | cons a as ih =>
    simp only [updateFirst]
    split <;> simp [ih]

theorem find?_updateFirst_self (ps : List Player) (did : String)
    (f : Player → Player) (d : Player) (hid : ∀ p, (f p).id = p.id)
    (h : ps.find? (fun p => p.id = did) = some d) :
    (updateFirst (fun p => p.id = did) f ps).find? (fun p => p.id = did) =
      some (f d) := by
  induction ps with
  | nil => simp at h
  | cons a as ih =>
    by_cases ha : a.id = did
    · rw [List.find?_cons_of_pos _ (by simpa using ha)] at h
      rw [Option.some.injEq] at h
      subst h
      simp only [updateFirst]
      rw [if_pos (by simpa using ha)]
      exact List.find?_cons_of_pos _ (by simp [hid a, ha])
    · rw [List.find?_cons_of_neg _ (by simpa using ha)] at h
      simp only [updateFirst]
      rw [if_neg (by simpa using ha)]
      rw [List.find?_cons_of_neg _ (by simpa using ha)]
      exact ih h

theorem find?_updateFirst_ne (ps : List Player) (did pid : String)
    (f : Player → Player) (hid : ∀ p, (f p).id = p.id) (hne : pid ≠ did) :
    (updateFirst (fun p => p.id = did) f ps).find? (fun p => p.id = pid) =
      ps.find? (fun p => p.id = pid) := by
  induction ps with
  | nil => rfl
  | cons a as ih =>
    by_cases ha : a.id = did
    · simp only [updateFirst]
      rw [if_pos (by simpa using ha)]
      have h1 : ¬((f a).id = pid) := by
        rw [hid a, ha]; exact fun hc => hne hc.symm
      have h2 : ¬(a.id = pid) := by
        rw [ha]; exact fun hc => hne hc.symm
      rw [List.find?_cons_of_neg _ (by simpa using h1),
        List.find?_cons_of_neg _ (by simpa using h2)]
    · simp only [updateFirst]
      rw [if_neg (by simpa using ha)]
      by_cases hp : a.id = pid
      · rw [List.find?_cons_of_pos _ (by simpa using hp),
          List.find?_cons_of_pos _ (by simpa using hp)]
      · rw [List.find?_cons_of_neg _ (by simpa using hp),
          List.find?_cons_of_neg _ (by simpa using hp)]
        exact ih

/-! ## `checkGameEnd` branch lemmas -/

theorem checkGameEnd_earlyWin (room : RoomState) (p : Player)
    (hr : room.round < MAX_ROUNDS)
    (hf : room.players.find? (fun q => WINNING_SCORE ≤ q.score) = some p) :
    checkGameEnd room = some (.ended p (.earlyWin p.name)) := by
  simp only [checkGameEnd]
  rw [if_neg (by omega)]
  rw [hf]

theorem checkGameEnd_capTie (room : RoomState) (top : Player)
    (hr : MAX_ROUNDS ≤ room.round)
    (ht : topPlayer? room.players = some top)
    (htie : 1 < (room.players.filter (fun p => p.score = top.score)).length) :
    checkGameEnd room = some (.ended top (.tieAtCap top.score)) := by
  simp only [checkGameEnd, ht, if_pos hr]
  rw [if_pos htie]

theorem authDrawer_isSome (room : RoomState) (h : room.players ≠ []) :
    ∃ d, authDrawer room = some d := by
  have hlen : 0 < room.players.length := List.length_pos.mpr h
  have hmod : room.turnIndex % room.players.length < room.players.length :=
    Nat.mod_lt _ hlen
  exact ⟨_, List.get?_eq_get hmod⟩

/-- The `room:state` payload never reads the word. -/
theorem payload_word_irrel (room : RoomState) (w₁ w₂ : Option String) (t : Nat) :
    roomStatePayload { room with word := w₁ } t =
      roomStatePayload { room with word := w₂ } t := by
  cases room
  rfl

/-! ## Registry lemmas -/

theorem findRoom_updateRoomReg (reg : Registry) (rid : String) (r room : RoomState)
    (h : findRoom reg rid = some room) :
    findRoom (updateRoomReg reg rid r) rid = some r := by
  induction reg with
  | nil => simp [findRoom] at h
  | cons kv reg ih =>
    by_cases hk : kv.1 = rid
    · simp only [updateRoomReg, List.map_cons, findRoom]
      rw [if_pos hk]
      rw [List.find?_cons_of_pos _ (by simpa using hk)]
      simp
    · simp only [findRoom] at h
      rw [List.find?_cons_of_neg _ (by simpa using hk)] at h
      simp only [updateRoomReg, List.map_cons, findRoom]
      rw [if_neg hk]
      rw [List.find?_cons_of_neg _ (by simpa using hk)]
      exact ih h

theorem findRoom_eraseRoom (reg : Registry) (rid : String) :
    findRoom (eraseRoom reg rid) rid = none := by
  induction reg with
  | nil => rfl
  | cons kv reg ih =>
    by_cases hk : kv.1 = rid
    · simp only [eraseRoom, List.filter_cons]
      rw [if_neg (by simpa using hk)]
      exact ih
    · simp only [eraseRoom, List.filter_cons]
      rw [if_pos (by simpa using hk)]
      simp only [findRoom]
      rw [List.find?_cons_of_neg _ (by simpa using hk)]
      exact ih

/-! ## Claim theorems -/

/-- C1, counterexample: the end-of-game evaluation does NOT give the win
threshold priority over the round cap.  In a room at round 6 whose players
are Alice (10 points, at the threshold) and Bob (11 points), `checkGameEnd`
takes the round-cap branch first and crowns the top scorer Bob — Alice,
although at the win threshold, is not the winner. -/
theorem threshold_not_priority_at_cap :
    pA10 ∈ roomThresholdAtCap.players ∧ WINNING_SCORE ≤ pA10.score ∧
      MAX_ROUNDS ≤ roomThresholdAtCap.round ∧
      checkGameEnd roomThresholdAtCap = some (.ended pB11 (.capWin "Bob" 11)) ∧
      pB11 ≠ pA10 := by
  decide

/-- C1, amended: while the round counter is BELOW the round cap, the first
player whose score has reached the win threshold (10) wins immediately:
`checkGameEnd` reports that player as winner with the early-win reason, and
ending the current round enters `gameover` and emits `game:over` with that
player in the winner field — in particular a player reaching score 10 on
round 3 ends the game at once. -/
theorem early_win_below_cap (room : RoomState) (p : Player) (r : EndReason) (t : Nat)
    (hr : room.round < MAX_ROUNDS)
    (hf : room.players.find? (fun q => WINNING_SCORE ≤ q.score) = some p) :
    checkGameEnd room = some (.ended p (.earlyWin p.name)) ∧
      (endRound room r t).map (fun pr => (pr.1.phase, gameOverPayload? pr.2)) =
        some (.gameover, some ⟨room.id, some (toPub p), .earlyWin p.name,
          sortDesc (room.players.map toPub)⟩) := by
  have hc : checkGameEnd room = some (.ended p (.earlyWin p.name)) :=
    checkGameEnd_earlyWin room p hr hf
  have hc1 : checkGameEnd { room with phase := Phase.intermission, timer := none } =
      some (.ended p (.earlyWin p.name)) := hc
  refine ⟨hc, ?_⟩
  simp only [endRound, hc1]
  simp [gameOverPayload?]

/-- Witness for C1's amended theorem: Pat reaches score 10 on round 3 and
the game ends immediately with Pat as winner. -/
theorem early_win_below_cap_witness :
    checkGameEnd roomEarlyWin =
        some (.ended ⟨"P", "Pat", 10, true, none⟩ (.earlyWin "Pat")) ∧
      (endRound roomEarlyWin .guessed 9).map (fun pr => (pr.1.phase, gameOverPayload? pr.2)) =
        some (.gameover, some ⟨"r2", some ⟨"P", "Pat", 10⟩, .earlyWin "Pat",
          [⟨"P", "Pat", 10⟩, ⟨"Q", "Quinn", 7⟩]⟩) :=
  early_win_below_cap roomEarlyWin ⟨"P", "Pat", 10, true, none⟩ .guessed 9
    (by decide) (by decide)

/-- C2, counterexample: at the round cap with the two players tied on top
(and nobody at the win threshold), the emitted `game:over` winner field
carries a SPECIFIC player — the first top scorer, Alice — rather than a
no-single-winner marker; only the reason reports the tie. -/
theorem tie_at_cap_emits_specific_winner :
    1 < (roomTiedAtCap.players.filter (fun p => p.score = 5)).length ∧
      (∀ p ∈ roomTiedAtCap.players, p.score < WINNING_SCORE) ∧
      (endRound roomTiedAtCap .timeout 0).map
          (fun pr => (gameOverPayload? pr.2).map (·.winner)) =
        some (some (some ⟨"A", "Alice", 5⟩)) := by
  decide

/-- C2, amended: when the round counter has reached the round cap with two
or more players tied at the top score and no player at the win threshold,
ending the round enters `gameover` and emits `game:over` whose REASON
reports the tie, whose winner field carries the first top-scoring player,
and whose `finalScores` list is sorted descending by score. -/
theorem tie_at_cap_gameover (room : RoomState) (r : EndReason) (t : Nat) (top : Player)
    (hr : MAX_ROUNDS ≤ room.round)
    (ht : topPlayer? room.players = some top)
    (htie : 1 < (room.players.filter (fun p => p.score = top.score)).length)
    (hlow : ∀ p ∈ room.players, p.score < WINNING_SCORE) :
    (endRound room r t).map (fun pr => (pr.1.phase, gameOverPayload? pr.2)) =
        some (.gameover, some ⟨room.id, some (toPub top), .tieAtCap top.score,
          sortDesc (room.players.map toPub)⟩) ∧
      (sortDesc (room.players.map toPub)).Pairwise (fun a b => b.score ≤ a.score) := by
  have hc1 : checkGameEnd { room with phase := Phase.intermission, timer := none } =
      some (.ended top (.tieAtCap top.score)) :=
    checkGameEnd_capTie room top hr ht htie
  refine ⟨?_, sortDesc_sorted _⟩
  simp only [endRound, hc1]
  simp [gameOverPayload?]

/-- Witness for C2's amended theorem: Xo and Yu tied at 4 points past the
round cap. -/
theorem tie_at_cap_gameover_witness :
    (endRound roomTiedAtCap2 .skipped 7).map (fun pr => (pr.1.phase, gameOverPayload? pr.2)) =
        some (.gameover, some ⟨"r4", some ⟨"X", "Xo", 4⟩, .tieAtCap 4,
          [⟨"X", "Xo", 4⟩, ⟨"Y", "Yu", 4⟩]⟩) ∧
      ([⟨"X", "Xo", 4⟩, ⟨"Y", "Yu", 4⟩] : List PPub).Pairwise
        (fun a b => b.score ≤ a.score) :=
  tie_at_cap_gameover roomTiedAtCap2 .skipped 7 ⟨"X", "Xo", 4, true, none⟩
    (by decide) (by decide) (by decide) (by decide)

/-- C3, counterexample: a `player:leave` event that empties the room's
player sequence deletes the room SYNCHRONOUSLY inside the leave handler —
immediately after the handler returns the room is gone from the registry
and no deferred deletion was scheduled. -/
theorem player_leave_deletes_synchronously :
    (playerLeaveReg regOnePlayer "r5" "A" 0).map
        (fun pr => (findRoom pr.1 "r5", pr.2.any isSchedDelete)) =
      some (none, false) := by
  decide

/-- C3, amended: the deferred deletion protects the PREVIOUS-ROOM removal
path of `player:join` (not the `player:leave` handler): when that path
empties a room, the room stays in the registry and only a 2-second
deletion check is scheduled; when the check fires it deletes the room only
if it is still empty, so a room re-occupied before the delay survives. -/
theorem join_path_deferred_deletion (reg : Registry) (prevId sid : String) (t : Nat)
    (room : RoomState) (hfind : findRoom reg prevId = some room)
    (hempty : room.players.filter (fun p => p.id ≠ sid) = [])
    (reg2 : Registry) (room2 : RoomState) (h2 : findRoom reg2 prevId = some room2) :
    (findRoom (prevRoomCleanup reg prevId sid t).1 prevId =
        some { room with players := [] } ∧
      Emit.scheduleDeleteCheck room.id 2000 ∈ (prevRoomCleanup reg prevId sid t).2) ∧
    (room2.players ≠ [] → findRoom (deferredDeleteFire reg2 prevId) prevId = some room2) ∧
    (room2.players = [] → findRoom (deferredDeleteFire reg2 prevId) prevId = none) := by
  refine ⟨?_, ?_, ?_⟩
  · simp only [prevRoomCleanup, hfind, prevRoomRemove, hempty]
    simp only [List.length_nil, if_pos rfl]
    exact ⟨findRoom_updateRoomReg reg prevId _ room hfind, by simp⟩
  · intro hne
    simp only [deferredDeleteFire, h2]
    rw [if_neg (by simpa [List.length_eq_zero] using hne)]
    exact h2
  · intro hnil
    simp only [deferredDeleteFire, h2]
    rw [if_pos (by simp [hnil])]
    exact findRoom_eraseRoom reg2 prevId

/-- Witness for C3's amended theorem: room r6 is emptied by the join-path
removal of its only player — it is still present (empty) right after the
handler, with the deletion merely scheduled. -/
theorem join_path_deferred_deletion_witness :
    findRoom (prevRoomCleanup regPrevRoom "r6" "A" 0).1 "r6" =
        some { room6 with players := [] } ∧
      Emit.scheduleDeleteCheck "r6" 2000 ∈ (prevRoomCleanup regPrevRoom "r6" "A" 0).2 :=
  (join_path_deferred_deletion regPrevRoom "r6" "A" 0 room6 (by decide) (by decide)
    regRejoined { roomInit "r6" with players := [⟨"Z", "Zoe", 0, true, none⟩] }
    (by decide)).1

/-- C4: the secret word never reaches a room broadcast: (1) the
`room:state` payload is independent of the room's word; (2) a chat message
whose normalized text equals the normalized secret word is suppressed —
no broadcast and no state change, so it does not count as a guess; (3)
among the emissions of `startRound` everything except the final message is
word-independent; and (4) that final message is the private `round:word`
delivery addressed to the drawer's own socket id. -/
theorem secret_word_never_broadcast :
    (∀ (room : RoomState) (w₁ w₂ : Option String) (t : Nat),
        roomStatePayload { room with word := w₁ } t =
          roomStatePayload { room with word := w₂ } t) ∧
      (∀ (room : RoomState) (sid msg w : String),
        room.word = some w → w ≠ "" → normalize (jsTrim msg) = normalize w →
          chatMessage room sid msg = (room, [])) ∧
      (∀ (room : RoomState) (w₁ w₂ : String) (t : Nat),
        ((startRound room w₁ t).2).dropLast = ((startRound room w₂ t).2).dropLast) ∧
      (∀ (room : RoomState) (w : String) (t : Nat), 2 ≤ room.players.length →
        ∃ d, authDrawer room = some d ∧
          ((startRound room w t).2).getLast? = some (.roundWord d.id w)) := by
  refine ⟨payload_word_irrel, ?_, ?_, ?_⟩
  · intro room sid msg w hw hne hnorm
    simp only [chatMessage]
    rcases hf : room.players.find? (fun p => p.id = sid) with - | player
    · simp [hf]
    · simp only [hf]
      split
      · rfl
      · split
        · rfl
        · rename_i hb
          exfalso
          apply hb
          rw [hw]
          simp [jsTruthy, hne, hnorm]
  · intro room w₁ w₂ t
    cases room
    simp only [startRound]
    split <;> rfl
  · intro room w t h2
    have hne : room.players ≠ [] := by
      intro hnil
      rw [hnil] at h2
      simp at h2
    obtain ⟨d, hd⟩ := authDrawer_isSome room hne
    refine ⟨d, hd, ?_⟩
    simp only [startRound]
    rw [if_neg (by omega)]
    rw [hd]
    rfl

/-- Witness for C4: in a concrete drawing-phase room with secret word
"Cat", a chat message reading " CAT " is suppressed without state change. -/
theorem secret_word_never_broadcast_witness :
    chatMessage roomAwaitGuess "B" " CAT " = (roomAwaitGuess, []) :=
  secret_word_never_broadcast.2.1 roomAwaitGuess "B" " CAT " "Cat"
    rfl (by decide) (by decide)

/-- C5: over every event sequence from a fresh room, `guessedThisRound`
holds at most one entry at all times; and whenever a handler step turns it
from empty to non-empty, that same step has already ended the round (the
resulting phase is not `drawing`). -/
theorem guessedThisRound_at_most_one :
    (∀ (rid : String) (tr : List Event) (s : RoomState),
        applyEvents (roomInit rid) tr = some s → s.guessed.length ≤ 1) ∧
      (∀ (a : RoomState) (e : Event) (b : RoomState),
        a.guessed = [] → applyEvent a e = some b → b.guessed ≠ [] →
          b.phase ≠ .drawing) := by
  constructor
  · intro rid tr s h
    exact guessed_le_one_aux tr (roomInit rid) s (by simp [roomInit]) h
  · intro a e b h0 hab h1
    exact (applyEvent_guessOk a e b hab).2 h0 h1

/-- Witness for C5: after two joins and a correct guess the reached state
has exactly one guessed entry. -/
theorem guessedThisRound_at_most_one_witness :
    sAfterGuess.guessed.length ≤ 1 :=
  guessedThisRound_at_most_one.1 "r" trGuess sAfterGuess (by decide)

/-- C6: once a correct guess has been recorded this round
(`guessedThisRound` non-empty), any further `guess:submit` — correct or
not — returns the room unchanged and emits nothing: no score change, no
new guessed entry, no award or round-ending event. -/
theorem second_guess_is_noop (room : RoomState) (sid g : String) (t : Nat)
    (h : room.guessed ≠ []) : guessSubmit room sid g t = some (room, []) :=
  guessSubmit_noop room sid g t h

/-- Witness for C6: a second (even correct) guess in an already-solved
round is a strict no-op. -/
theorem second_guess_is_noop_witness :
    guessSubmit roomSolved "A" "dog" 9 = some (roomSolved, []) :=
  second_guess_is_noop roomSolved "A" "dog" 9 (by decide)

/-- C8 (code bug): the handlers are NOT total.  A reachable trace — two
players play five timed-out rounds to reach round 6, then both leave,
emptying the room while the round timer stays armed — leaves the machine
in a state with an empty player list, round 6 and a pending round timer;
the subsequent timer expiry runs `endRound → checkGameEnd`, whose
`players.reduce` with no initial value throws on the empty array (modelled
as `none`), crashing instead of evaluating the end of game. -/
theorem empty_room_at_cap_crashes :
    (applyEvents (roomInit "r") trEmptyAtCap).map
        (fun s => (s.players, s.round, s.timer)) =
      some ([], 6, some TimerKind.round) ∧
      applyEvents (roomInit "r") trCrash = none ∧
      checkGameEnd { roomInit "r" with round := 6 } = none := by
  refine ⟨by decide, by decide, rfl⟩

/-- C9: the displayed drawer and the authoritative drawer use different
indexing domains — `room:state` takes `turnIndex` modulo the CONNECTED
player count while the permission checks take it modulo the FULL count —
and the reachable state after `trInterleaved` (a disconnected player
interleaved in turn order, phase `drawing`) makes them disagree: the
broadcast names A as drawer while the authoritative drawer is C. -/
theorem drawer_indexing_domains_disagree :
    (applyEvents (roomInit "r") trInterleaved).map
        (fun s => (displayedDrawerId s 0, (authDrawer s).map (·.id), s.phase,
          s.players.map (·.connected))) =
      some (some "A", some "C", .drawing, [true, false, true]) ∧
      ("A" : String) ≠ "C" := by
  exact ⟨by decide, by decide⟩

/-- C10: removing the current drawer from their previous room through the
`player:join` previous-room path leaves that room's round untouched: the
phase (still `drawing`), word, deadline, round counter and armed timer are
all unchanged, the player is filtered out of the sequence (even if it
becomes empty), and no `round:ended` or `game:over` event is emitted. -/
theorem join_prev_room_frame (room : RoomState) (sid : String) (t : Nat)
    (hphase : room.phase = .drawing)
    (hdrawer : (authDrawer room).map (·.id) = some sid) :
    (prevRoomRemove room sid t).1.phase = room.phase ∧
      (prevRoomRemove room sid t).1.word = room.word ∧
      (prevRoomRemove room sid t).1.roundEndAt = room.roundEndAt ∧
      (prevRoomRemove room sid t).1.timer = room.timer ∧
      (prevRoomRemove room sid t).1.round = room.round ∧
      (prevRoomRemove room sid t).1.players =
        room.players.filter (fun p => p.id ≠ sid) ∧
      (∀ e ∈ (prevRoomRemove room sid t).2,
        (∀ rid rr, e ≠ .roundEnded rid rr) ∧ (∀ p, e ≠ .gameOver p)) := by
  simp only [prevRoomRemove]
  split
  · refine ⟨rfl, rfl, rfl, rfl, rfl, rfl, ?_⟩
    intro e he
    simp only [List.mem_singleton] at he
    subst he
    exact ⟨fun rid rr => by simp, fun p => by simp⟩
  · split
    · refine ⟨rfl, rfl, rfl, rfl, rfl, rfl, ?_⟩
      intro e he
      simp only [List.mem_singleton] at he
      subst he
      exact ⟨fun rid rr => by simp, fun p => by simp⟩
    · refine ⟨rfl, rfl, rfl, rfl, rfl, rfl, ?_⟩
      intro e he
      simp only [List.mem_singleton] at he
      subst he
      exact ⟨fun rid rr => by simp, fun p => by simp⟩

/-- C7: in a drawing-phase room with no correct guess yet, a guess from a
non-drawer that, after normalization, exactly equals the normalized secret
word awards the guesser +2 and the drawer +1, leaves every other player's
score unchanged, and records the guesser; and (second part) the drawer
award step — incrementing the first player carrying the drawer's id — is
skipped without error when no player with that id is present. -/
theorem first_correct_guess_awards :
    (∀ (room : RoomState) (sid g : String) (t : Nat) (guesser drawer : Player),
      room.phase = .drawing → room.guessed = [] →
      room.players.find? (fun p => p.id = sid) = some guesser →
      authDrawer room = some drawer →
      room.players.find? (fun p => p.id = drawer.id) = some drawer →
      drawer.id ≠ sid →
      normalize g ≠ "" →
      normalize g = normalize (room.word.getD "") →
      (guessSubmit room sid g t).map
          (fun pr => (scoreOf pr.1.players sid, scoreOf pr.1.players drawer.id,
            pr.1.guessed)) =
        some (some (guesser.score + 2), some (drawer.score + 1), [sid]) ∧
      (∀ pid, pid ≠ sid → pid ≠ drawer.id →
        (guessSubmit room sid g t).map (fun pr => scoreOf pr.1.players pid) =
          some (scoreOf room.players pid))) ∧
    (∀ (ps : List Player) (did : String), (∀ p ∈ ps, p.id ≠ did) →
      updateFirst (fun p => p.id = did) (fun q => { q with score := q.score + 1 }) ps =
        ps) := by
  constructor
  · intro room sid g t guesser drawer hphase hguessed hfg had hfd hne hg1 hg2
    have hid2 : ∀ p : Player, (({ p with score := p.score + 2 } : Player)).id = p.id :=
      fun p => rfl
    have hid1 : ∀ p : Player, (({ p with score := p.score + 1 } : Player)).id = p.id :=
      fun p => rfl
    have hps_ne : room.players ≠ [] := by
      intro hnil
      rw [hnil] at hfg
      exact Option.noConfusion hfg
    have hstep : guessSubmit room sid g t =
        (endRound { room with
            players := updateFirst (fun p => p.id = drawer.id)
              (fun q => { q with score := q.score + 1 })
              (updateFirst (fun p => p.id = sid) (fun q => { q with score := q.score + 2 })
                room.players),
            guessed := room.guessed ++ [sid] } .guessed t).map
          (fun pr => (pr.1,
            [Emit.scoreUpdate room.id
               ((updateFirst (fun p => p.id = drawer.id)
                  (fun q => { q with score := q.score + 1 })
                  (updateFirst (fun p => p.id = sid)
                    (fun q => { q with score := q.score + 2 }) room.players)).map toPub),
             Emit.chatMsg room.id "System" (guesser.name ++ " guessed it!") true] ++
              pr.2)) := by
      simp only [guessSubmit, hfg, had]
      rw [if_neg (by simp [hphase])]
      rw [if_neg hne]
      rw [if_neg hg1]
      rw [if_neg (by simp [hguessed])]
      rw [if_pos hg2]
    have hne2 : ({ room with
        players := updateFirst (fun p => p.id = drawer.id)
          (fun q => { q with score := q.score + 1 })
          (updateFirst (fun p => p.id = sid) (fun q => { q with score := q.score + 2 })
            room.players),
        guessed := room.guessed ++ [sid] } : RoomState).players ≠ [] := by
      simp only [ne_eq, ← List.length_eq_zero]
      rw [updateFirst_length, updateFirst_length]
      simpa [List.length_eq_zero] using hps_ne
    obtain ⟨pr, hpr⟩ := Option.isSome_iff_exists.mp (endRound_isSome _ .guessed t hne2)
    have hsp := endRound_spec _ _ _ _ _ hpr
    have hfind_sid :
        (updateFirst (fun p => p.id = drawer.id) (fun q => { q with score := q.score + 1 })
          (updateFirst (fun p => p.id = sid) (fun q => { q with score := q.score + 2 })
            room.players)).find? (fun p => p.id = sid) =
          some { guesser with score := guesser.score + 2 } := by
      rw [find?_updateFirst_ne _ drawer.id sid _ hid1 (Ne.symm hne)]
      exact find?_updateFirst_self room.players sid _ guesser hid2 hfg
    have hfind_dr :
        (updateFirst (fun p => p.id = drawer.id) (fun q => { q with score := q.score + 1 })
          (updateFirst (fun p => p.id = sid) (fun q => { q with score := q.score + 2 })
            room.players)).find? (fun p => p.id = drawer.id) =
          some { drawer with score := drawer.score + 1 } := by
      apply find?_updateFirst_self _ drawer.id _ drawer hid1
      rw [find?_updateFirst_ne room.players sid drawer.id _ hid2 hne]
      exact hfd
    constructor
    · rw [hstep, hpr]
      simp only [Option.map_some']
      rw [hsp.1]
      simp only [scoreOf, hfind_sid, hfind_dr, Option.map_some']
      rw [hsp.2.1, hguessed]
      rfl
    · intro pid hps hpd
      rw [hstep, hpr]
      simp only [Option.map_some']
      rw [hsp.1]
      simp only [scoreOf]
      rw [find?_updateFirst_ne _ drawer.id pid _ hid1 hpd,
        find?_updateFirst_ne room.players sid pid _ hid2 hps]
  · intro ps did
    induction ps with
    | nil => intro _; rfl
    | cons a as ih =>
      intro hnd
      simp only [updateFirst]
      rw [if_neg (by simpa using hnd a (by simp))]
      rw [ih (fun p hp => hnd p (by simp [hp]))]

/-- Witness for C7: in `roomAwaitGuess` (drawer A with 3 points, word
"Cat"), B's guess " CAT " awards B 1+2 and A 3+1 and records B. -/
theorem first_correct_guess_awards_witness :
    (guessSubmit roomAwaitGuess "B" " CAT " 5).map
        (fun pr => (scoreOf pr.1.players "B", scoreOf pr.1.players "A",
          pr.1.guessed)) =
      some (some 3, some 4, ["B"]) :=
  ((first_correct_guess_awards.1 roomAwaitGuess "B" " CAT " 5
      ⟨"B", "Bo", 1, true, none⟩ ⟨"A", "Al", 3, true, none⟩
      rfl rfl (by decide) (by decide) (by decide) (by decide) (by decide)
      (by decide)).1)

/-- Witness for C10: the drawing-phase room `roomDrawerPrev` keeps its word
and its armed round timer when its drawer A is removed by the join-path
cleanup. -/
theorem join_prev_room_frame_witness :
    (prevRoomRemove roomDrawerPrev "A" 0).1.word = roomDrawerPrev.word ∧
      (prevRoomRemove roomDrawerPrev "A" 0).1.timer = roomDrawerPrev.timer :=
  ⟨(join_prev_room_frame roomDrawerPrev "A" 0 (by decide) (by decide)).2.1,
    (join_prev_room_frame roomDrawerPrev "A" 0 (by decide) (by decide)).2.2.2.1⟩

end Pict
